import Mathlib

/-!
Verification of the statistics-aggregation pipeline of the profile-readme
updater (scripts/update-readme/helpers.js).

Shallow embedding conventions:

* A UTC instant is an integer count of milliseconds since the Unix epoch,
  exactly as in the JavaScript Date runtime.  The ISO-8601 strings the
  chunker stores in its range objects are an injective, order-preserving
  rendering of those instants, so ranges are modelled as pairs of instants.
* Remote calls (octokit REST / GraphQL) are modelled as function parameters
  returning Except: an error value is a rejected promise / thrown error.
  The awaited pagination helper octokit.paginate is modelled by a function
  returning the list of pages it fetched; its result, as seen by the code,
  is the concatenation (flatten) of those pages.
* The fixed two-second inter-chunk delay has no observable effect in the
  value model and is not represented.
* Strings are lists of characters (JavaScript code units; all characters
  that matter here are in the BMP).  Curly braces appear as the escapes
  \x7b and \x7d.
-/

set_option maxHeartbeats 1000000

/-- Days since the Unix epoch of the proleptic-Gregorian civil date
(y, m, d) with m in 1..12, by the standard civil-from-days algorithm.
This is the calendar arithmetic the JavaScript Date runtime performs for
Date.UTC. -/
def daysFromCivil (y m d : Int) : Int :=
  let yy := if m ≤ 2 then y - 1 else y
  let era := yy / 400
  let yoe := yy - era * 400
  let doy := (153 * (if 2 < m then m - 3 else m + 9) + 2) / 5 + (d - 1)
  let doe := yoe * 365 + yoe / 4 - yoe / 100 + doy
  era * 146097 + doe - 719468

/-- Milliseconds since the Unix epoch of 00:00:00 UTC on day 1 of the
total-month index t (calendar year t / 12, month index t % 12). -/
def monthStartMs (t : Int) : Int :=
  86400000 * daysFromCivil (t / 12) (t % 12 + 1) 1

/-- JavaScript Date.UTC(year, month, 1): the month index is an arbitrary
integer and is normalised into the year, exactly as the Date runtime does. -/
def dateUTC (year month : Int) : Int :=
  monthStartMs (year * 12 + month)

/-- One chunk produced by calculateDateRanges: the half-open interval
[from', to').  The source stores the two instants as ISO strings; the
fields here are the instants those strings denote. -/
structure DateRange where
  from' : Int
  to' : Int
deriving DecidableEq, Repr

/-- Loop shared by both branches of calculateDateRanges: while the current
chunk start f i is strictly before now (date-fns isBefore), emit the range
[f i, f (i + 1)) and advance to the next chunk index.  The hypothesis hf
records that consecutive chunk starts strictly increase, which is what
makes the source loop terminate. -/
def rangesFrom (f : Int → Int) (hf : ∀ i : Int, f i < f (i + 1)) (now i : Int) :
    List DateRange :=
  if f i < now then ⟨f i, f (i + 1)⟩ :: rangesFrom f hf now (i + 1) else []
termination_by (now - f i).toNat
decreasing_by have := hf i; omega

/-- Embedding of calculateDateRanges(chunk, fromYear, fromMonth) from
helpers.js, with the implicit new Date() made an explicit now parameter.
The month branch starts at Date.UTC(fromYear, fromMonth, 1) and steps one
calendar month; the year branch starts at Date.UTC(fromYear, 0, 1) and
steps one calendar year, ignoring fromMonth.  Any other chunk string
produces no ranges. -/
def calculateDateRanges (chunk : String) (fromYear fromMonth : Int) (now : Int) :
    List DateRange :=
  (if chunk = "month" then
    rangesFrom monthStartMs
      (by intro t; simp only [monthStartMs, daysFromCivil]; split_ifs <;> omega)
      now (fromYear * 12 + fromMonth)
   else []) ++
  (if chunk = "year" then
    rangesFrom (fun y => dateUTC y 0)
      (by
        intro t
        have h : ∀ s : Int, monthStartMs s < monthStartMs (s + 1) := by
          intro s; simp only [monthStartMs, daysFromCivil]; split_ifs <;> omega
        have hsm : StrictMono monthStartMs := strictMono_int_of_lt_succ h
        simpa [dateUTC] using hsm (by omega : t * 12 + 0 < (t + 1) * 12 + 0))
      now fromYear
   else [])

/-- Loop body of fetchContributions: for each yearly range issue one graph
query (resp), add the returned scalar to the running total and bump the
call counter; a rejected call aborts the whole run with that same error. -/
def fetchContributionsGo {ε : Type} (resp : DateRange → Except ε Int) :
    List DateRange → Int → Nat → Except ε (Int × Nat)
  | [], contributions, callCount => .ok (contributions, callCount)
  | date :: rest, contributions, callCount =>
    match resp date with
    | .error e => .error e
    | .ok total => fetchContributionsGo resp rest (contributions + total) (callCount + 1)

/-- Embedding of fetchContributions(octokit, username, since) from
helpers.js.  The GraphQL client is the resp parameter; creationYear is
new Date(since).getFullYear(); now is the implicit new Date() inside
calculateDateRanges.  Returns (contributions, fetchContributionsAPICallCount). -/
def fetchContributions {ε : Type} (resp : DateRange → Except ε Int)
    (now creationYear : Int) : Except ε (Int × Nat) :=
  fetchContributionsGo resp (calculateDateRanges ("year") creationYear 0 now) 0 0

/-- Per-commit statistics returned by the commit-detail endpoint
(fullCommit.data.stats). -/
structure CommitStats where
  additions : Int
  deletions : Int
deriving DecidableEq, Repr

/-- Inner loop of fetchLinesOfCode: one detail fetch per commit of the
current month, accumulating additions and deletions and bumping the call
counter once per fetch; a rejected fetch aborts with that error. -/
def locCommits {ε α : Type} (fullCommit : α → Except ε CommitStats) :
    List α → Int → Int → Nat → Except ε (Int × Int × Nat)
  | [], additions, deletions, callCount => .ok (additions, deletions, callCount)
  | commit :: rest, additions, deletions, callCount =>
    match fullCommit commit with
    | .error e => .error e
    | .ok s =>
      locCommits fullCommit rest (additions + s.additions) (deletions + s.deletions)
        (callCount + 1)

/-- Outer loop of fetchLinesOfCode: for each monthly range run the commit
search (octokit.paginate, modelled by searchPages returning the fetched
pages; the code sees their concatenation), bump the call counter once for
the paginate call, then process every returned commit. -/
def locRanges {ε α : Type} (searchPages : DateRange → Except ε (List (List α)))
    (fullCommit : α → Except ε CommitStats) :
    List DateRange → Int → Int → Nat → Except ε (Int × Int × Nat)
  | [], additions, deletions, callCount => .ok (additions, deletions, callCount)
  | date :: rest, additions, deletions, callCount =>
    match searchPages date with
    | .error e => .error e
    | .ok pages =>
      match locCommits fullCommit pages.flatten additions deletions (callCount + 1) with
      | .error e => .error e
      | .ok (a, d, n) => locRanges searchPages fullCommit rest a d n

/-- Embedding of fetchLinesOfCode(octokit, username, since) from
helpers.js.  startYear / startMonth are getFullYear / getMonth of the
since date; now is the implicit new Date().  Returns
(additions, deletions, fetchLinesOfCodeAPICallCount). -/
def fetchLinesOfCode {ε α : Type} (searchPages : DateRange → Except ε (List (List α)))
    (fullCommit : α → Except ε CommitStats) (now startYear startMonth : Int) :
    Except ε (Int × Int × Nat) :=
  locRanges searchPages fullCommit
    (calculateDateRanges ("month") startYear startMonth now) 0 0 0

/-- Embedding of commitPopulatedTemplate(octokit, username, populatedTemplate)
from helpers.js.  getReadme models octokit.rest.repos.getReadme (yielding
the current readme version marker, its sha) and createOrUpdateFileContents
models the write call given the content and that sha.  The success path
returns the call count 2; a rejection at either call aborts with that
error untouched. -/
def commitPopulatedTemplate {ε σ : Type} (getReadme : Except ε σ)
    (createOrUpdateFileContents : List Char → σ → Except ε Unit)
    (populatedTemplate : List Char) : Except ε Nat :=
  match getReadme with
  | .error e => .error e
  | .ok readmeSha =>
    match createOrUpdateFileContents populatedTemplate readmeSha with
    | .error e => .error e
    | .ok _ => .ok 2

/-- Line terminators, which the . of the template placeholder regex does
not match (LF, CR, LS, PS). -/
def isLineTerminator (c : Char) : Bool :=
  c == '\n' || c == '\r' || c == '\u2028' || c == '\u2029'

/-- Characters removed by JavaScript String.prototype.trim: WhiteSpace and
LineTerminator code points (controls, space, no-break and typographic
spaces, ideographic space, BOM, and the four line terminators). -/
def isJsWhitespace (c : Char) : Bool :=
  c == '\t' || c == '\n' || c == '\x0B' || c == '\x0C' || c == '\r' || c == ' ' ||
  c == '\u00A0' || c == '\u1680' ||
  c == '\u2000' || c == '\u2001' || c == '\u2002' || c == '\u2003' ||
  c == '\u2004' || c == '\u2005' || c == '\u2006' || c == '\u2007' ||
  c == '\u2008' || c == '\u2009' || c == '\u200A' ||
  c == '\u2028' || c == '\u2029' || c == '\u202F' || c == '\u205F' ||
  c == '\u3000' || c == '\uFEFF'

/-- JavaScript key.trim(): strip leading and trailing whitespace. -/
def jsTrim (s : List Char) : List Char :=
  ((s.dropWhile isJsWhitespace).reverse.dropWhile isJsWhitespace).reverse

/-- Fallback value substituted for a placeholder whose trimmed key is
absent from the stats object: the literal string N/A. -/
def naString : List Char := ['N', '/', 'A']

/-- Value chosen by the replacement callback: stats[key.trim()] ?? "N/A". -/
def valueFor (stats : List Char → Option (List Char)) (key : List Char) : List Char :=
  (stats (jsTrim key)).getD naString

/-- Length of the dot padding: Math.max(0, 64 - 5 - key.length - value.length),
where key is the raw captured key (not trimmed) and value the substituted
value. -/
def fillerLen (stats : List Char → Option (List Char)) (key : List Char) : Nat :=
  (max 0 (64 - 5 - (key.length : Int) - ((valueFor stats key).length : Int))).toNat

/-- Replacement callback of generatePopulatedTemplate: the template string
dots-space-value substituted for the whole placeholder match. -/
def replacementFor (stats : List Char → Option (List Char)) (key : List Char) :
    List Char :=
  List.replicate (fillerLen stats key) '.' ++ ' ' :: valueFor stats key

/-- Lazy search for the closing braces of a placeholder: the shortest
prefix (the captured key, which may not contain a line terminator, since
the regex uses .) followed by the two-character close marker.  The
returned remainder carries the length bound used for termination of the
scan. -/
def findClose : (l : List Char) → Option (List Char × { r : List Char // r.length + 2 ≤ l.length })
  | '\x7d' :: '\x7d' :: rest => some ([], ⟨rest, by simp⟩)
  | c :: rest =>
    if isLineTerminator c then none
    else
      (findClose rest).map fun p =>
        (c :: p.1, ⟨p.2.1, by have := p.2.2; simp only [List.length_cons]; omega⟩)
  | [] => none

/-- Leftmost match of the placeholder regex in the template: returns the
unmatched prefix, the captured key and the remainder after the match.  A
position where the open marker is not followed by a reachable close marker
is skipped one character at a time, as the regex engine does. -/
def findMatch : (t : List Char) → Option (List Char × List Char × { r : List Char // r.length < t.length })
  | [] => none
  | c :: rest =>
    if c = '\x7b' ∧ rest.head? = some '\x7b' then
      match findClose rest.tail with
      | some (key, r) =>
        some ([], key,
          ⟨r.1, by
            have := r.2
            simp only [List.length_tail, List.length_cons] at this ⊢
            omega⟩)
      | none =>
        (findMatch rest).map fun m =>
          (c :: m.1, m.2.1,
            ⟨m.2.2.1, by have := m.2.2.2; simp only [List.length_cons]; omega⟩)
    else
      (findMatch rest).map fun m =>
        (c :: m.1, m.2.1,
          ⟨m.2.2.1, by have := m.2.2.2; simp only [List.length_cons]; omega⟩)

/-- Global regex replacement template.replace(re, cb): rewrite every
placeholder match, left to right, by the callback applied to its captured
key. -/
def renderAux (cb : List Char → List Char) (t : List Char) : List Char :=
  match findMatch t with
  | some (pre, key, rest) => pre ++ cb key ++ renderAux cb rest.1
  | none => t
termination_by t.length
decreasing_by exact rest.2

/-- Captured keys of the placeholder matches of a template, in match
order. -/
def placeholderKeys (t : List Char) : List (List Char) :=
  match findMatch t with
  | some (_, key, rest) => key :: placeholderKeys rest.1
  | none => []
termination_by t.length
decreasing_by exact rest.2

/-- Embedding of generatePopulatedTemplate(stats) from helpers.js, with
the template file contents made an explicit parameter: replace every
placeholder, computing dot padding and value by the replacement callback. -/
def generatePopulatedTemplate (stats : List Char → Option (List Char))
    (template : List Char) : List Char :=
  renderAux (replacementFor stats) template

theorem monthStartMs_lt_succ (t : Int) : monthStartMs t < monthStartMs (t + 1) := by
  simp only [monthStartMs, daysFromCivil]; split_ifs <;> omega

theorem dateUTC_zero_lt_succ (y : Int) : dateUTC y 0 < dateUTC (y + 1) 0 := by
  have hsm : StrictMono monthStartMs := strictMono_int_of_lt_succ monthStartMs_lt_succ
  simpa [dateUTC] using hsm (by omega : y * 12 + 0 < (y + 1) * 12 + 0)

theorem rangesFrom_pos (f : Int → Int) (hf : ∀ i : Int, f i < f (i + 1)) (now i : Int)
    (h : f i < now) :
    rangesFrom f hf now i = ⟨f i, f (i + 1)⟩ :: rangesFrom f hf now (i + 1) := by
  rw [rangesFrom, if_pos h]

theorem rangesFrom_neg (f : Int → Int) (hf : ∀ i : Int, f i < f (i + 1)) (now i : Int)
    (h : ¬ f i < now) : rangesFrom f hf now i = [] := by
  rw [rangesFrom, if_neg h]

theorem rangesFrom_chain (f : Int → Int) (hf : ∀ i : Int, f i < f (i + 1)) (now i : Int) :
    List.Chain' (fun a b => a.to' = b.from') (rangesFrom f hf now i) := by
  induction i using rangesFrom.induct f hf now with
  | case1 i h ih =>
    rw [rangesFrom_pos f hf now i h, List.chain'_cons']
    refine ⟨?_, ih⟩
    intro b hb
    by_cases h2 : f (i + 1) < now
    · rw [rangesFrom_pos f hf now (i + 1) h2] at hb
      simp only [List.head?_cons, Option.mem_def, Option.some.injEq] at hb
      subst hb; rfl
    · rw [rangesFrom_neg f hf now (i + 1) h2] at hb
      simp at hb
  | case2 i h =>
    rw [rangesFrom_neg f hf now i h]; exact List.chain'_nil

theorem rangesFrom_chain_lt (f : Int → Int) (hf : ∀ i : Int, f i < f (i + 1)) (now i : Int) :
    List.Chain' (fun a b => a.from' < b.from') (rangesFrom f hf now i) := by
  induction i using rangesFrom.induct f hf now with
  | case1 i h ih =>
    rw [rangesFrom_pos f hf now i h, List.chain'_cons']
    refine ⟨?_, ih⟩
    intro b hb
    by_cases h2 : f (i + 1) < now
    · rw [rangesFrom_pos f hf now (i + 1) h2] at hb
      simp only [List.head?_cons, Option.mem_def, Option.some.injEq] at hb
      subst hb; exact hf i
    · rw [rangesFrom_neg f hf now (i + 1) h2] at hb
      simp at hb
  | case2 i h =>
    rw [rangesFrom_neg f hf now i h]; exact List.chain'_nil

theorem rangesFrom_mem (f : Int → Int) (hf : ∀ i : Int, f i < f (i + 1)) (now i : Int) :
    ∀ r ∈ rangesFrom f hf now i, r.from' < now ∧ r.from' < r.to' := by
  induction i using rangesFrom.induct f hf now with
  | case1 i h ih =>
    rw [rangesFrom_pos f hf now i h]
    intro r hr
    rcases List.mem_cons.mp hr with h1 | h1
    · subst h1; exact ⟨h, hf i⟩
    · exact ih r h1
  | case2 i h =>
    rw [rangesFrom_neg f hf now i h]
    intro r hr
    simp at hr

theorem rangesFrom_last (f : Int → Int) (hf : ∀ i : Int, f i < f (i + 1)) (now i : Int) :
    ∀ r, (rangesFrom f hf now i).getLast? = some r → now ≤ r.to' := by
  induction i using rangesFrom.induct f hf now with
  | case1 i h ih =>
    rw [rangesFrom_pos f hf now i h]
    intro r hr
    by_cases h2 : f (i + 1) < now
    · rw [rangesFrom_pos f hf now (i + 1) h2, List.getLast?_cons_cons,
        ← rangesFrom_pos f hf now (i + 1) h2] at hr
      exact ih r hr
    · rw [rangesFrom_neg f hf now (i + 1) h2] at hr
      simp only [List.getLast?_singleton, Option.some.injEq] at hr
      subst hr
      show now ≤ f (i + 1)
      omega
  | case2 i h =>
    rw [rangesFrom_neg f hf now i h]
    intro r hr
    simp at hr

theorem calculateDateRanges_month (y m now : Int) :
    calculateDateRanges ("month") y m now =
      rangesFrom monthStartMs monthStartMs_lt_succ now (y * 12 + m) := by
  simp [calculateDateRanges]

theorem calculateDateRanges_year (y m now : Int) :
    calculateDateRanges ("year") y m now =
      rangesFrom (fun z => dateUTC z 0) dateUTC_zero_lt_succ now y := by
  simp [calculateDateRanges]

theorem dateUTC_month_succ (y m : Int) : dateUTC y (m + 1) = monthStartMs (y * 12 + m + 1) := by
  simp only [dateUTC]
  congr 1
  ring

/-- Claim C1, counterexample: with now one millisecond after the start of
January 2024, the month chunker started at January 2024 returns a single
range whose end, the start of February 2024, is strictly later than now,
so the ranges do not cover exactly the half-open interval up to now and
the final range extends past now. -/
theorem claimC1_counterexample :
    dateUTC 2024 0 ≤ dateUTC 2024 0 + 1 ∧
    calculateDateRanges ("month") 2024 0 (dateUTC 2024 0 + 1) =
      [⟨dateUTC 2024 0, dateUTC 2024 1⟩] ∧
    dateUTC 2024 0 + 1 < dateUTC 2024 1 := by
  refine ⟨by omega, ?_, by decide⟩
  rw [calculateDateRanges_month, rangesFrom_pos _ _ _ _ (by decide),
    rangesFrom_neg _ _ _ _ (by decide)]
  decide

/-- Claim C1 (amended): for every start instant not after now, the ranges
returned by the chunker are contiguous (each range's end equals the next
range's start), every range is nonempty and starts strictly before now,
the first range starts exactly at the start instant, and the final range
ends at the first chunk boundary at or after now — so the ranges cover
the half-open interval from the start up to now, with the final range
allowed to extend past now by less than one chunk (it is not bounded by
now itself).  Stated for both the month and the year granularity. -/
theorem claimC1 (y m now : Int) :
    (dateUTC y m ≤ now →
      List.Chain' (fun a b => a.to' = b.from') (calculateDateRanges ("month") y m now) ∧
      (∀ r ∈ calculateDateRanges ("month") y m now, r.from' < now ∧ r.from' < r.to') ∧
      (dateUTC y m < now →
        ∃ rest, calculateDateRanges ("month") y m now =
          ⟨dateUTC y m, dateUTC y (m + 1)⟩ :: rest) ∧
      (∀ r, (calculateDateRanges ("month") y m now).getLast? = some r → now ≤ r.to')) ∧
    (dateUTC y 0 ≤ now →
      List.Chain' (fun a b => a.to' = b.from') (calculateDateRanges ("year") y m now) ∧
      (∀ r ∈ calculateDateRanges ("year") y m now, r.from' < now ∧ r.from' < r.to') ∧
      (dateUTC y 0 < now →
        ∃ rest, calculateDateRanges ("year") y m now =
          ⟨dateUTC y 0, dateUTC (y + 1) 0⟩ :: rest) ∧
      (∀ r, (calculateDateRanges ("year") y m now).getLast? = some r → now ≤ r.to')) := by
  constructor
  · intro _
    rw [calculateDateRanges_month]
    refine ⟨rangesFrom_chain _ _ _ _, rangesFrom_mem _ _ _ _, ?_, rangesFrom_last _ _ _ _⟩
    intro hlt
    refine ⟨rangesFrom monthStartMs monthStartMs_lt_succ now (y * 12 + m + 1), ?_⟩
    rw [rangesFrom_pos monthStartMs monthStartMs_lt_succ now (y * 12 + m) hlt,
      dateUTC_month_succ]
    rfl
  · intro _
    rw [calculateDateRanges_year]
    refine ⟨rangesFrom_chain _ _ _ _, rangesFrom_mem _ _ _ _, ?_, rangesFrom_last _ _ _ _⟩
    intro hlt
    exact ⟨rangesFrom (fun z => dateUTC z 0) dateUTC_zero_lt_succ now (y + 1),
      rangesFrom_pos (fun z => dateUTC z 0) dateUTC_zero_lt_succ now y hlt⟩

/-- Claim C1, witness: the amended theorem applied at start January 2024
with now at the start of June 2024. -/
theorem claimC1_witness :
    List.Chain' (fun a b => a.to' = b.from')
      (calculateDateRanges ("month") 2024 0 (dateUTC 2024 5)) ∧
    List.Chain' (fun a b => a.to' = b.from')
      (calculateDateRanges ("year") 2024 0 (dateUTC 2024 5)) :=
  ⟨((claimC1 2024 0 (dateUTC 2024 5)).1 (by decide)).1,
   ((claimC1 2024 0 (dateUTC 2024 5)).2 (by decide)).1⟩

/-- Claim C5: for every start not in the future, the month chunker yields
contiguous (each range's end equals the next range's start), strictly
increasing ranges whose first range starts at Date.UTC(startYear,
startMonth, 1); the year chunker likewise with January-1 boundaries
starting at Date.UTC(startYear, 0, 1), ignoring startMonth. -/
theorem claimC5 (y m now : Int) :
    (dateUTC y m ≤ now →
      List.Chain' (fun a b => a.to' = b.from') (calculateDateRanges ("month") y m now) ∧
      List.Chain' (fun a b => a.from' < b.from') (calculateDateRanges ("month") y m now) ∧
      (dateUTC y m < now →
        ∃ rest, calculateDateRanges ("month") y m now =
          ⟨dateUTC y m, dateUTC y (m + 1)⟩ :: rest)) ∧
    (dateUTC y 0 ≤ now →
      List.Chain' (fun a b => a.to' = b.from') (calculateDateRanges ("year") y m now) ∧
      List.Chain' (fun a b => a.from' < b.from') (calculateDateRanges ("year") y m now) ∧
      (dateUTC y 0 < now →
        ∃ rest, calculateDateRanges ("year") y m now =
          ⟨dateUTC y 0, dateUTC (y + 1) 0⟩ :: rest)) := by
  constructor
  · intro _
    rw [calculateDateRanges_month]
    refine ⟨rangesFrom_chain _ _ _ _, rangesFrom_chain_lt _ _ _ _, ?_⟩
    intro hlt
    refine ⟨rangesFrom monthStartMs monthStartMs_lt_succ now (y * 12 + m + 1), ?_⟩
    rw [rangesFrom_pos monthStartMs monthStartMs_lt_succ now (y * 12 + m) hlt,
      dateUTC_month_succ]
    rfl
  · intro _
    rw [calculateDateRanges_year]
    refine ⟨rangesFrom_chain _ _ _ _, rangesFrom_chain_lt _ _ _ _, ?_⟩
    intro hlt
    exact ⟨rangesFrom (fun z => dateUTC z 0) dateUTC_zero_lt_succ now (y + 1),
      rangesFrom_pos (fun z => dateUTC z 0) dateUTC_zero_lt_succ now y hlt⟩

/-- Claim C5, witness: the theorem applied at start March 2022 with now at
the start of June 2024, and the first-range conclusions made concrete. -/
theorem claimC5_witness :
    (∃ rest, calculateDateRanges ("month") 2022 2 (dateUTC 2024 5) =
      ⟨dateUTC 2022 2, dateUTC 2022 3⟩ :: rest) ∧
    (∃ rest, calculateDateRanges ("year") 2022 2 (dateUTC 2024 5) =
      ⟨dateUTC 2022 0, dateUTC 2023 0⟩ :: rest) :=
  ⟨(((claimC5 2022 2 (dateUTC 2024 5)).1 (by decide)).2.2 (by decide)),
   (((claimC5 2022 2 (dateUTC 2024 5)).2 (by decide)).2.2 (by decide))⟩

/-- Claim C9: a start strictly after now yields an empty range sequence,
for both granularities (the month branch starting at Date.UTC(startYear,
startMonth, 1), the year branch at Date.UTC(startYear, 0, 1)).  The
embedding is a total function, so no input raises an error. -/
theorem claimC9 (y m now : Int) :
    (now < dateUTC y m → calculateDateRanges ("month") y m now = []) ∧
    (now < dateUTC y 0 → calculateDateRanges ("year") y m now = []) := by
  constructor
  · intro h
    rw [calculateDateRanges_month]
    exact rangesFrom_neg _ _ _ _ (by simp only [dateUTC] at h; omega)
  · intro h
    rw [calculateDateRanges_year]
    exact rangesFrom_neg _ _ _ _ (by omega)

/-- Claim C9, witness: a start in the year 2100 with now at the start of
June 2024 yields no ranges for either granularity. -/
theorem claimC9_witness :
    calculateDateRanges ("month") 2100 0 (dateUTC 2024 5) = [] ∧
    calculateDateRanges ("year") 2100 0 (dateUTC 2024 5) = [] :=
  ⟨(claimC9 2100 0 (dateUTC 2024 5)).1 (by decide),
   (claimC9 2100 0 (dateUTC 2024 5)).2 (by decide)⟩

theorem fetchContributionsGo_ok {ε : Type} (f : DateRange → Int) :
    ∀ (rs : List DateRange) (acc : Int) (cnt : Nat),
      fetchContributionsGo (ε := ε) (fun r => .ok (f r)) rs acc cnt =
        .ok (acc + (rs.map f).sum, cnt + rs.length) := by
  intro rs
  induction rs with
  | nil => intro acc cnt; simp [fetchContributionsGo]
  | cons r rest ih =>
    intro acc cnt
    simp only [fetchContributionsGo, ih, List.map_cons, List.sum_cons, List.length_cons,
      Except.ok.injEq, Prod.mk.injEq]
    exact ⟨by ring, by omega⟩

theorem fetchContributionsGo_err {ε : Type} (resp : DateRange → Except ε Int) :
    ∀ (rs1 : List DateRange) (r : DateRange) (rs2 : List DateRange) (e : ε)
      (acc : Int) (cnt : Nat),
      (∀ r' ∈ rs1, ∃ v, resp r' = .ok v) → resp r = .error e →
      fetchContributionsGo resp (rs1 ++ r :: rs2) acc cnt = .error e := by
  intro rs1
  induction rs1 with
  | nil =>
    intro r rs2 e acc cnt _ hr
    simp [fetchContributionsGo, hr]
  | cons a rs ih =>
    intro r rs2 e acc cnt hok hr
    obtain ⟨v, hv⟩ := hok a (List.mem_cons_self a rs)
    simp only [List.cons_append, fetchContributionsGo, hv]
    exact ih r rs2 e _ _ (fun x hx => hok x (List.mem_cons_of_mem a hx)) hr

theorem locCommits_ok {ε α : Type} (g : α → CommitStats) :
    ∀ (cs : List α) (a d : Int) (n : Nat),
      locCommits (ε := ε) (fun c => .ok (g c)) cs a d n =
        .ok (a + ((cs.map g).map CommitStats.additions).sum,
             d + ((cs.map g).map CommitStats.deletions).sum, n + cs.length) := by
  intro cs
  induction cs with
  | nil => intro a d n; simp [locCommits]
  | cons c rest ih =>
    intro a d n
    simp only [locCommits, ih, List.map_cons, List.sum_cons, List.length_cons,
      Except.ok.injEq, Prod.mk.injEq]
    exact ⟨by ring, by ring, by omega⟩

theorem locCommits_exists_ok {ε α : Type} (fc : α → Except ε CommitStats) :
    ∀ (cs : List α) (a d : Int) (n : Nat),
      (∀ c ∈ cs, ∃ s, fc c = .ok s) →
      ∃ a' d' n', locCommits fc cs a d n = .ok (a', d', n') := by
  intro cs
  induction cs with
  | nil => intro a d n _; exact ⟨a, d, n, rfl⟩
  | cons c rest ih =>
    intro a d n hok
    obtain ⟨s, hs⟩ := hok c (List.mem_cons_self c rest)
    obtain ⟨a', d', n', h'⟩ :=
      ih (a + s.additions) (d + s.deletions) (n + 1)
        (fun x hx => hok x (List.mem_cons_of_mem c hx))
    exact ⟨a', d', n', by simp only [locCommits, hs]; exact h'⟩

theorem locCommits_err {ε α : Type} (fc : α → Except ε CommitStats) :
    ∀ (cs1 : List α) (c : α) (cs2 : List α) (e : ε) (a d : Int) (n : Nat),
      (∀ c' ∈ cs1, ∃ s, fc c' = .ok s) → fc c = .error e →
      locCommits fc (cs1 ++ c :: cs2) a d n = .error e := by
  intro cs1
  induction cs1 with
  | nil =>
    intro c cs2 e a d n _ hc
    simp [locCommits, hc]
  | cons x rest ih =>
    intro c cs2 e a d n hok hc
    obtain ⟨s, hs⟩ := hok x (List.mem_cons_self x rest)
    simp only [List.cons_append, locCommits, hs]
    exact ih c cs2 e _ _ _ (fun z hz => hok z (List.mem_cons_of_mem x hz)) hc

theorem locRanges_ok {ε α : Type} (sp : DateRange → List (List α)) (g : α → CommitStats) :
    ∀ (rs : List DateRange) (a d : Int) (n : Nat),
      locRanges (ε := ε) (fun r => .ok (sp r)) (fun c => .ok (g c)) rs a d n =
        .ok (a + (rs.map (fun r => (((sp r).flatten.map g).map CommitStats.additions).sum)).sum,
             d + (rs.map (fun r => (((sp r).flatten.map g).map CommitStats.deletions).sum)).sum,
             n + rs.length + (rs.map (fun r => (sp r).flatten.length)).sum) := by
  intro rs
  induction rs with
  | nil => intro a d n; simp [locRanges]
  | cons r rest ih =>
    intro a d n
    simp only [locRanges, locCommits_ok, ih, List.map_cons, List.sum_cons, List.length_cons,
      Except.ok.injEq, Prod.mk.injEq]
    exact ⟨by ring, by ring, by omega⟩

theorem locRanges_err_search {ε α : Type} (sp : DateRange → Except ε (List (List α)))
    (fc : α → Except ε CommitStats) :
    ∀ (rs1 : List DateRange) (r : DateRange) (rs2 : List DateRange) (e : ε)
      (a d : Int) (n : Nat),
      (∀ r' ∈ rs1, ∃ pages, sp r' = .ok pages ∧ ∀ c ∈ pages.flatten, ∃ s, fc c = .ok s) →
      sp r = .error e →
      locRanges sp fc (rs1 ++ r :: rs2) a d n = .error e := by
  intro rs1
  induction rs1 with
  | nil =>
    intro r rs2 e a d n _ hr
    simp [locRanges, hr]
  | cons x rest ih =>
    intro r rs2 e a d n hok hr
    obtain ⟨pages, hp, hcs⟩ := hok x (List.mem_cons_self x rest)
    obtain ⟨a', d', n', hlc⟩ := locCommits_exists_ok fc pages.flatten a d (n + 1) hcs
    simp only [List.cons_append, locRanges, hp, hlc]
    exact ih r rs2 e _ _ _ (fun z hz => hok z (List.mem_cons_of_mem x hz)) hr

theorem locRanges_err_commit {ε α : Type} (sp : DateRange → Except ε (List (List α)))
    (fc : α → Except ε CommitStats) :
    ∀ (rs1 : List DateRange) (r : DateRange) (rs2 : List DateRange)
      (pages : List (List α)) (cs1 : List α) (c : α) (cs2 : List α) (e : ε)
      (a d : Int) (n : Nat),
      (∀ r' ∈ rs1, ∃ ps, sp r' = .ok ps ∧ ∀ c' ∈ ps.flatten, ∃ s, fc c' = .ok s) →
      sp r = .ok pages → pages.flatten = cs1 ++ c :: cs2 →
      (∀ c' ∈ cs1, ∃ s, fc c' = .ok s) → fc c = .error e →
      locRanges sp fc (rs1 ++ r :: rs2) a d n = .error e := by
  intro rs1
  induction rs1 with
  | nil =>
    intro r rs2 pages cs1 c cs2 e a d n _ hp hflat hok1 hc
    simp only [List.nil_append, locRanges, hp, hflat,
      locCommits_err fc cs1 c cs2 e a d (n + 1) hok1 hc]
  | cons x rest ih =>
    intro r rs2 pages cs1 c cs2 e a d n hok hp hflat hok1 hc
    obtain ⟨ps, hps, hcs⟩ := hok x (List.mem_cons_self x rest)
    obtain ⟨a', d', n', hlc⟩ := locCommits_exists_ok fc ps.flatten a d (n + 1) hcs
    simp only [List.cons_append, locRanges, hps, hlc]
    exact ih r rs2 pages cs1 c cs2 e _ _ _
      (fun z hz => hok z (List.mem_cons_of_mem x hz)) hp hflat hok1 hc

theorem monthRanges_jan2024 :
    calculateDateRanges ("month") 2024 0 (dateUTC 2024 1) =
      [⟨dateUTC 2024 0, dateUTC 2024 1⟩] := by
  rw [calculateDateRanges_month,
    rangesFrom_pos monthStartMs monthStartMs_lt_succ (dateUTC 2024 1) (2024 * 12 + 0)
      (by decide),
    rangesFrom_neg monthStartMs monthStartMs_lt_succ (dateUTC 2024 1) (2024 * 12 + 0 + 1)
      (by decide)]
  decide

theorem monthRanges_janfeb2024 :
    calculateDateRanges ("month") 2024 0 (dateUTC 2024 2) =
      [⟨dateUTC 2024 0, dateUTC 2024 1⟩, ⟨dateUTC 2024 1, dateUTC 2024 2⟩] := by
  rw [calculateDateRanges_month,
    rangesFrom_pos monthStartMs monthStartMs_lt_succ (dateUTC 2024 2) (2024 * 12 + 0)
      (by decide),
    rangesFrom_pos monthStartMs monthStartMs_lt_succ (dateUTC 2024 2) (2024 * 12 + 0 + 1)
      (by decide),
    rangesFrom_neg monthStartMs monthStartMs_lt_succ (dateUTC 2024 2) (2024 * 12 + 0 + 1 + 1)
      (by decide)]
  decide

theorem yearRanges_2000to2003 :
    calculateDateRanges ("year") 2000 0 (dateUTC 2003 0) =
      [⟨dateUTC 2000 0, dateUTC 2001 0⟩, ⟨dateUTC 2001 0, dateUTC 2002 0⟩,
       ⟨dateUTC 2002 0, dateUTC 2003 0⟩] := by
  rw [calculateDateRanges_year,
    rangesFrom_pos (fun z => dateUTC z 0) dateUTC_zero_lt_succ (dateUTC 2003 0) 2000
      (by decide),
    rangesFrom_pos (fun z => dateUTC z 0) dateUTC_zero_lt_succ (dateUTC 2003 0) (2000 + 1)
      (by decide),
    rangesFrom_pos (fun z => dateUTC z 0) dateUTC_zero_lt_succ (dateUTC 2003 0) (2000 + 1 + 1)
      (by decide),
    rangesFrom_neg (fun z => dateUTC z 0) dateUTC_zero_lt_succ (dateUTC 2003 0)
      (2000 + 1 + 1 + 1) (by decide)]
  decide

/-- Claim C6: when every graph query succeeds, the contribution aggregator
returns the sum of the per-range scalar totals of its yearly ranges
together with a call count equal to the number of yearly ranges; in
particular, over mocked yearly responses 3, 5 and 7 (account created in
2000, now at the start of 2003) it returns total 15 and call count 3. -/
theorem claimC6 :
    (∀ {ε : Type} (f : DateRange → Int) (now creationYear : Int),
      fetchContributions (ε := ε) (fun r => .ok (f r)) now creationYear =
        .ok (((calculateDateRanges ("year") creationYear 0 now).map f).sum,
             (calculateDateRanges ("year") creationYear 0 now).length)) ∧
    fetchContributions (ε := Unit)
      (fun r => if r.from' = dateUTC 2000 0 then .ok 3
                else if r.from' = dateUTC 2001 0 then .ok 5 else .ok 7)
      (dateUTC 2003 0) 2000 = .ok (15, 3) := by
  constructor
  · intro ε f now creationYear
    rw [fetchContributions, fetchContributionsGo_ok]
    norm_num
  · rw [fetchContributions, yearRanges_2000to2003]
    rfl

/-- Claim C2, counterexample: one month range (January 2024) whose mocked
commit search returns two pages of one commit each, so the search spans
k = 2 pages and yields n = 2 commits.  The claim predicts k + n = 4 call
units, but the aggregator counts the whole pagination as a single unit and
returns a call count of 1 + n = 3. -/
theorem claimC2_counterexample :
    fetchLinesOfCode (ε := Unit)
      (fun _ => .ok [[(⟨10, 2⟩ : CommitStats)], [⟨3, 1⟩]])
      (fun c => .ok c) (dateUTC 2024 1) 2024 0 = .ok (13, 3, 3) ∧
    (3 : Nat) ≠ 2 + 2 := by
  constructor
  · rw [fetchLinesOfCode, monthRanges_jan2024]
    rfl
  · decide

/-- Claim C2 (amended): when every call succeeds, the lines-of-code
aggregator returns a call count of one unit per month-range commit search
(one per pagination call, regardless of how many pages the search
spanned) plus one unit per per-commit detail fetch — a month range whose
search returns n commits contributes 1 + n units, not pages + n. -/
theorem claimC2 {ε α : Type} (sp : DateRange → List (List α)) (g : α → CommitStats)
    (now y m : Int) :
    fetchLinesOfCode (ε := ε) (fun r => .ok (sp r)) (fun c => .ok (g c)) now y m =
      .ok (((calculateDateRanges ("month") y m now).map
              (fun r => (((sp r).flatten.map g).map CommitStats.additions).sum)).sum,
           ((calculateDateRanges ("month") y m now).map
              (fun r => (((sp r).flatten.map g).map CommitStats.deletions).sum)).sum,
           (calculateDateRanges ("month") y m now).length +
             ((calculateDateRanges ("month") y m now).map
                (fun r => (sp r).flatten.length)).sum) := by
  rw [fetchLinesOfCode, locRanges_ok]
  norm_num

/-- Claim C3, counterexample: run against two mocked monthly ranges
(January and February 2024) whose search each returns one page containing
2 commits with stats (+10, -2) and (+3, -1), the aggregator sums all four
commits and returns additions 26 and deletions 6, not 13 and 3. -/
theorem claimC3_counterexample :
    Except.map (fun x => (x.1, x.2.1))
      (fetchLinesOfCode (ε := Unit)
        (fun _ => .ok [[(⟨10, 2⟩ : CommitStats), ⟨3, 1⟩]])
        (fun c => .ok c) (dateUTC 2024 2) 2024 0) = .ok (26, 6) ∧
    ((26 : Int), (6 : Int)) ≠ ((13 : Int), (3 : Int)) := by
  constructor
  · rw [fetchLinesOfCode, monthRanges_janfeb2024]
    rfl
  · decide

/-- Claim C3 (amended): run against two mocked monthly pages, each
containing 2 commits with per-commit stats (+10, -2) and (+3, -1), the
aggregator returns additions 26 and deletions 6 (the four commits summed;
the call count is 6: one search per month plus one detail fetch per
commit). -/
theorem claimC3 :
    fetchLinesOfCode (ε := Unit)
      (fun _ => .ok [[(⟨10, 2⟩ : CommitStats), ⟨3, 1⟩]])
      (fun c => .ok c) (dateUTC 2024 2) 2024 0 = .ok (26, 6, 6) := by
  rw [fetchLinesOfCode, monthRanges_janfeb2024]
  rfl

/-- Claim C8: every failure of a remote call made by the aggregators or
the publisher propagates to the caller unmodified and uncaught: if the
calls before it succeed and a yearly contribution query, a monthly commit
search, a per-commit detail fetch, the readme read, or the readme write
(in particular a write rejected because its version marker went stale)
fails with an error, the whole run returns exactly that error. -/
theorem claimC8 :
    (∀ {ε : Type} (resp : DateRange → Except ε Int) (now cy : Int)
        (rs1 : List DateRange) (r : DateRange) (rs2 : List DateRange) (e : ε),
      calculateDateRanges ("year") cy 0 now = rs1 ++ r :: rs2 →
      (∀ r' ∈ rs1, ∃ v, resp r' = .ok v) →
      resp r = .error e →
      fetchContributions resp now cy = .error e) ∧
    (∀ {ε α : Type} (sp : DateRange → Except ε (List (List α)))
        (fc : α → Except ε CommitStats) (now y m : Int)
        (rs1 : List DateRange) (r : DateRange) (rs2 : List DateRange) (e : ε),
      calculateDateRanges ("month") y m now = rs1 ++ r :: rs2 →
      (∀ r' ∈ rs1, ∃ ps, sp r' = .ok ps ∧ ∀ c' ∈ ps.flatten, ∃ s, fc c' = .ok s) →
      (sp r = .error e ∨
        ∃ (pages : List (List α)) (cs1 : List α) (c : α) (cs2 : List α),
          sp r = .ok pages ∧ pages.flatten = cs1 ++ c :: cs2 ∧
          (∀ c' ∈ cs1, ∃ s, fc c' = .ok s) ∧ fc c = .error e) →
      fetchLinesOfCode sp fc now y m = .error e) ∧
    (∀ {ε σ : Type} (getReadme : Except ε σ)
        (createOrUpdateFileContents : List Char → σ → Except ε Unit)
        (pt : List Char) (e : ε),
      (getReadme = .error e →
        commitPopulatedTemplate getReadme createOrUpdateFileContents pt = .error e) ∧
      (∀ sha, getReadme = .ok sha → createOrUpdateFileContents pt sha = .error e →
        commitPopulatedTemplate getReadme createOrUpdateFileContents pt = .error e)) := by
  refine ⟨?_, ?_, ?_⟩
  · intro ε resp now cy rs1 r rs2 e hranges hok hr
    rw [fetchContributions, hranges]
    exact fetchContributionsGo_err resp rs1 r rs2 e 0 0 hok hr
  · intro ε α sp fc now y m rs1 r rs2 e hranges hok hfail
    rw [fetchLinesOfCode, hranges]
    rcases hfail with hr | ⟨pages, cs1, c, cs2, hp, hflat, hok1, hc⟩
    · exact locRanges_err_search sp fc rs1 r rs2 e 0 0 0 hok hr
    · exact locRanges_err_commit sp fc rs1 r rs2 pages cs1 c cs2 e 0 0 0
        hok hp hflat hok1 hc
  · intro ε σ getReadme createOrUpdateFileContents pt e
    constructor
    · intro h
      simp only [commitPopulatedTemplate.eq_def, h]
    · intro sha hok hconflict
      simp only [commitPopulatedTemplate.eq_def, hok, hconflict]

/-- Claim C8, witness: a publish whose write call is rejected with
conflict error 409 because the version marker went stale returns exactly
that error; a contribution run whose single yearly query is rejected with
error 7 returns exactly that error. -/
theorem claimC8_witness :
    commitPopulatedTemplate (Except.ok (0 : Nat)) (fun _ _ => Except.error (409 : Nat)) [] =
      .error 409 ∧
    fetchContributions (fun _ => Except.error (7 : Nat)) (dateUTC 2024 1) 2024 = .error 7 := by
  constructor
  · exact (claimC8.2.2 (Except.ok (0 : Nat)) (fun _ _ => Except.error (409 : Nat)) []
      (409 : Nat)).2 0 rfl rfl
  · refine claimC8.1 (fun _ => Except.error (7 : Nat)) (dateUTC 2024 1) 2024 []
      ⟨dateUTC 2024 0, dateUTC 2025 0⟩ [] (7 : Nat) ?_ (by simp) rfl
    rw [calculateDateRanges_year,
      rangesFrom_pos (fun z => dateUTC z 0) dateUTC_zero_lt_succ (dateUTC 2024 1) 2024
        (by decide),
      rangesFrom_neg (fun z => dateUTC z 0) dateUTC_zero_lt_succ (dateUTC 2024 1) (2024 + 1)
        (by decide)]
    decide

theorem render_infix_aux (cb : List Char → List Char) :
    ∀ (n : Nat) (t : List Char), t.length ≤ n → ∀ k ∈ placeholderKeys t,
      List.IsInfix (cb k) (renderAux cb t) := by
  intro n
  induction n with
  | zero =>
    intro t ht k hk
    have h0 : t = [] := List.length_eq_zero.mp (Nat.le_zero.mp ht)
    subst h0
    rw [placeholderKeys, show findMatch ([] : List Char) = none from rfl] at hk
    simp at hk
  | succ n ih =>
    intro t ht k hk
    rw [placeholderKeys] at hk
    rw [renderAux]
    cases hfm : findMatch t with
    | none =>
      rw [hfm] at hk
      simp at hk
    | some m =>
      obtain ⟨pre, key, rest⟩ := m
      rw [hfm] at hk
      replace hk : k ∈ key :: placeholderKeys rest.1 := hk
      show List.IsInfix (cb k) (pre ++ cb key ++ renderAux cb rest.1)
      simp only [List.mem_cons] at hk
      rcases hk with hk | hk
      · subst hk
        exact ⟨pre, renderAux cb rest.1, by simp⟩
      · have hlt : rest.1.length ≤ n := by have := rest.2; omega
        exact (ih rest.1 hlt k hk).trans ⟨pre ++ cb key, [], by simp⟩

theorem mem_placeholderKeys_replacement (cb : List Char → List Char) (t k : List Char)
    (hk : k ∈ placeholderKeys t) : List.IsInfix (cb k) (renderAux cb t) :=
  render_infix_aux cb t.length t le_rfl k hk

/-- Claim C7: a placeholder whose trimmed key is absent from the stats
mapping is rendered with the literal string N/A as its value: the
replacement text ends in N/A after the filler run and the single space,
and the rendered output therefore contains N/A in place of the value. -/
theorem claimC7 :
    (∀ (stats : List Char → Option (List Char)) (key : List Char),
      stats (jsTrim key) = none →
      replacementFor stats key =
        List.replicate (fillerLen stats key) '.' ++ ' ' :: naString) ∧
    (∀ (stats : List Char → Option (List Char)) (t key : List Char),
      key ∈ placeholderKeys t → stats (jsTrim key) = none →
      List.IsInfix naString (generatePopulatedTemplate stats t)) := by
  have hval : ∀ (stats : List Char → Option (List Char)) (key : List Char),
      stats (jsTrim key) = none → valueFor stats key = naString := by
    intro stats key h
    simp [valueFor, h]
  constructor
  · intro stats key h
    rw [replacementFor, hval stats key h]
  · intro stats t key hk h
    rw [generatePopulatedTemplate]
    refine List.IsInfix.trans ?_ (mem_placeholderKeys_replacement (replacementFor stats) t key hk)
    rw [replacementFor, hval stats key h]
    exact ⟨List.replicate (fillerLen stats key) '.' ++ [' '], [], by simp⟩

/-- Claim C7, witness: rendering the one-placeholder template against an
empty stats mapping produces output containing the literal N/A. -/
theorem claimC7_witness :
    List.IsInfix naString
      (generatePopulatedTemplate (fun _ => none)
        ['\x7b', '\x7b', 'f', 'o', 'o', '\x7d', '\x7d']) := by
  refine claimC7.2 (fun _ => none) ['\x7b', '\x7b', 'f', 'o', 'o', '\x7d', '\x7d']
    ['f', 'o', 'o'] ?_ rfl
  have h1 : placeholderKeys ['\x7b', '\x7b', 'f', 'o', 'o', '\x7d', '\x7d'] =
      ['f', 'o', 'o'] :: placeholderKeys [] := by
    rw [placeholderKeys]
    rfl
  have h2 : placeholderKeys ([] : List Char) = [] := by
    rw [placeholderKeys]
    rfl
  rw [h1, h2]
  exact List.mem_singleton.mpr rfl

/-- Claim C4, counterexample: for the placeholder key written with
surrounding spaces (raw key of length 3, trimmed key x of length 1, value
5 of length 1), the code computes a filler run of 64 - 5 - 3 - 1 = 55
dots from the raw key length, while the claimed formula over the trimmed
key length predicts 64 - 5 - 1 - 1 = 57. -/
theorem claimC4_counterexample :
    fillerLen (fun k => if k = ['x'] then some ['5'] else none) [' ', 'x', ' '] = 55 ∧
    (max 0 (64 - 5 -
        ((jsTrim [' ', 'x', ' ']).length : Int) -
        ((valueFor (fun k => if k = ['x'] then some ['5'] else none)
            [' ', 'x', ' ']).length : Int))).toNat = 57 ∧
    (55 : Nat) ≠ 57 := by
  refine ⟨by decide, by decide, by decide⟩

/-- Claim C4 (amended): each placeholder replacement uses a filler run of
length exactly max(0, 64 - 5 - len(key) - len(value)) where key is the
raw, untrimmed captured key (the trimmed key is used only for the value
lookup); in particular whenever len(key) + len(value) is at least 59 the
filler run length is exactly 0, never negative, and otherwise it is
exactly 59 - len(key) - len(value). -/
theorem claimC4 (stats : List Char → Option (List Char)) (key : List Char) :
    ((59 : Int) ≤ (key.length : Int) + ((valueFor stats key).length : Int) →
      fillerLen stats key = 0) ∧
    ((key.length : Int) + ((valueFor stats key).length : Int) ≤ 59 →
      (fillerLen stats key : Int) =
        59 - (key.length : Int) - ((valueFor stats key).length : Int)) := by
  constructor <;> · intro h; simp only [fillerLen]; omega

/-- Claim C4, witness: a 60-character key with an absent value (N/A, three
characters) exceeds the width budget and gets a filler run of exactly 0. -/
theorem claimC4_witness :
    fillerLen (fun _ => none) (List.replicate 60 'k') = 0 :=
  (claimC4 (fun _ => none) (List.replicate 60 'k')).1 (by decide)

/-- Claim C10, counterexample: with a 58-character value for key x, both
the unpadded key x and the whitespace-padded key yield a filler run of 0
(the unpadded budget 64 - 5 - 1 - 58 is already 0 and clamping stops the
padded run going negative), so the padded placeholder does not get a
strictly shorter filler run than the unpadded one. -/
theorem claimC10_counterexample :
    jsTrim [' ', 'x', ' '] = ['x'] ∧
    fillerLen (fun k => if k = ['x'] then some (List.replicate 58 'v') else none)
      [' ', 'x', ' '] = 0 ∧
    fillerLen (fun k => if k = ['x'] then some (List.replicate 58 'v') else none)
      ['x'] = 0 ∧
    ¬ fillerLen (fun k => if k = ['x'] then some (List.replicate 58 'v') else none)
        [' ', 'x', ' '] <
      fillerLen (fun k => if k = ['x'] then some (List.replicate 58 'v') else none)
        ['x'] := by
  refine ⟨by decide, by decide, by decide, by decide⟩

/-- Claim C10 (amended): the text substituted for each placeholder is the
filler run, one literal space, then the value, and it appears in the
rendered output; the value lookup uses the trimmed key while the filler
run is computed from the raw untrimmed key length, so of two keys equal
after trimming the longer (whitespace-padded) one gets the same value, a
filler run no longer than the shorter one's, and a strictly shorter
filler run whenever the shorter key's filler run is nonzero. -/
theorem claimC10 :
    (∀ (stats : List Char → Option (List Char)) (t key : List Char),
      key ∈ placeholderKeys t →
      List.IsInfix (List.replicate (fillerLen stats key) '.' ++ ' ' :: valueFor stats key)
        (generatePopulatedTemplate stats t)) ∧
    (∀ (stats : List Char → Option (List Char)) (k1 k2 : List Char),
      jsTrim k1 = jsTrim k2 → k1.length < k2.length →
      valueFor stats k2 = valueFor stats k1 ∧
      fillerLen stats k2 ≤ fillerLen stats k1 ∧
      (0 < fillerLen stats k1 → fillerLen stats k2 < fillerLen stats k1)) := by
  constructor
  · intro stats t key hk
    rw [generatePopulatedTemplate]
    have h := mem_placeholderKeys_replacement (replacementFor stats) t key hk
    rw [replacementFor] at h
    exact h
  · intro stats k1 k2 htrim hlen
    have hv : valueFor stats k2 = valueFor stats k1 := by
      simp [valueFor, htrim]
    refine ⟨hv, ?_, ?_⟩ <;>
      · simp only [fillerLen, hv]
        omega

/-- Claim C10, witness: for key x with value 5, the padded key written
with one space on each side gets filler run 55, strictly shorter than the
unpadded key's 57. -/
theorem claimC10_witness :
    fillerLen (fun k => if k = ['x'] then some ['5'] else none) [' ', 'x', ' '] <
      fillerLen (fun k => if k = ['x'] then some ['5'] else none) ['x'] :=
  (claimC10.2 (fun k => if k = ['x'] then some ['5'] else none) ['x'] [' ', 'x', ' ']
    (by decide) (by decide)).2.2 (by decide)
